import Mathlib

/-!
Verification development for the `dbx` database-access package.

The development embeds the two core components of the repository:

* the nested transaction controller `Transact` (savepoint-based revision,
  `src/unnamed/part_002`; the repository's tests exercise exactly this
  savepoint behaviour), and
* the connection cache `Cache` (`src/open.db.go`).

Machine handles (`*bun.DB`, `*bun.Tx`) are opaque pointers in the source, so
they are embedded as type parameters `DB` and `Tx`.  Calls into the database
engine (`BeginTx`, `Commit`, `Rollback`, `OpenDB`, `Close`) are I/O performed
by an external collaborator; each embedded operation takes the outcome of the
corresponding engine call as an explicit argument (`Except String Tx` for a
begin that may fail, `Option String` for a commit/rollback error), exactly at
the point where the source performs the call.  Timestamps are naturals.
-/

namespace Dbx

/-! ### Transaction controller (src/unnamed/part_002) -/

/-- Which engine call a `Start` performed: `BeginTx` on the root handle
(`t.db.BeginTx`), or a savepoint begin on the currently active transaction
(`t.tx.BeginTx`), recording the parent handle. -/
inductive BeginCall (Tx : Type) where
  | root : BeginCall Tx
  | savepoint : Tx → BeginCall Tx
  deriving Repr, DecidableEq

/-- The `Transact` struct: root handle `db`, active transaction `tx`
(`nil` ↦ `none`), parent-savepoint stack `stack`, and nesting counter
`nested` (a Go `int`, hence `Int`).  Zero value: `tx = none`, `stack = []`,
`nested = 0`. -/
structure Transact (DB Tx : Type) where
  db : DB
  tx : Option Tx := none
  stack : List Tx := []
  nested : Int := 0
  deriving Repr

/-- `NewTransactWithDb`: a fresh controller bound to a handle. -/
def newTransactWithDb {DB Tx : Type} (d : DB) : Transact DB Tx :=
  { db := d }

/-- `Db()`: the root handle when no transaction is active, otherwise the
innermost active transaction. -/
def Transact.dbHandle {DB Tx : Type} (t : Transact DB Tx) : Sum DB Tx :=
  match t.tx with
  | none => Sum.inl t.db
  | some x => Sum.inr x

/-- `Start`.  `engine` is the outcome of the one `BeginTx` call the source
makes (savepoint begin on `t.tx` if a transaction is active, else a root
begin on `t.db`).  Returns the new state, the returned error, and which
engine call was made. -/
def Transact.start {DB Tx : Type} (t : Transact DB Tx) (engine : Except String Tx) :
    Transact DB Tx × Option String × BeginCall Tx :=
  match t.tx with
  | some cur =>
      match engine with
      | .error e => (t, some e, .savepoint cur)
      | .ok sp =>
          ({ t with tx := some sp, stack := t.stack ++ [cur], nested := t.nested + 1 },
            none, .savepoint cur)
  | none =>
      match engine with
      | .error e => (t, some e, .root)
      | .ok tx0 => ({ t with tx := some tx0, nested := 1, stack := [] }, none, .root)

/-- `Commit`.  `engine` is the error (if any) of the `t.tx.Commit()` call the
source makes when a transaction is active. -/
def Transact.commit {DB Tx : Type} (t : Transact DB Tx) (engine : Option String) :
    Transact DB Tx × Option String :=
  match t.tx with
  | none => (t, some "cannot commit: no tx active")
  | some _ =>
      if 1 < t.nested then
        match engine with
        | some e => (t, some e)
        | none =>
            match t.stack.getLast? with
            | some p =>
                ({ t with tx := some p, stack := t.stack.dropLast, nested := t.nested - 1 },
                  none)
            | none => ({ t with tx := none, nested := t.nested - 1 }, none)
      else
        match engine with
        | some e => (t, some e)
        | none => ({ t with tx := none, stack := [], nested := t.nested - 1 }, none)

/-- `Rollback`.  Same shape as `Commit`, except that at depth 1 the state is
cleared even when the engine rollback fails, and the engine error is
returned. -/
def Transact.rollback {DB Tx : Type} (t : Transact DB Tx) (engine : Option String) :
    Transact DB Tx × Option String :=
  match t.tx with
  | none => (t, some "cannot rollback: no tx active")
  | some _ =>
      if 1 < t.nested then
        match engine with
        | some e => (t, some e)
        | none =>
            match t.stack.getLast? with
            | some p =>
                ({ t with tx := some p, stack := t.stack.dropLast, nested := t.nested - 1 },
                  none)
            | none => ({ t with tx := none, nested := t.nested - 1 }, none)
      else
        ({ t with tx := none, stack := [], nested := t.nested - 1 }, engine)

/-- Behaviour of the function supplied to the scoped helper: it returns
`nil`, returns an error, or hits an unrecoverable runtime fault. -/
inductive FnOut where
  | ok : FnOut
  | err : String → FnOut
  | fault : FnOut
  deriving Repr, DecidableEq

/-- Outcome of the scoped helper: a returned error value, or a re-raised
unrecoverable fault. -/
inductive TxnOut where
  | ret : Option String → TxnOut
  | fault : TxnOut
  deriving Repr, DecidableEq

/-- Events performed by the scoped helper, in order: a successful `Start`,
a `Commit`/`Rollback` call (recording whether it succeeded), and the
re-raising of a fault. -/
inductive Ev where
  | evStart : Ev
  | evCommit : Bool → Ev
  | evRollback : Bool → Ev
  | evReraise : Ev
  deriving Repr, DecidableEq

/-- `errors.Join(err, fmt.Errorf("rollback failed: %w", rErr))`. -/
def joinErr : Option String → String → String
  | none, r => "rollback failed: " ++ r
  | some e, r => e ++ "\n" ++ "rollback failed: " ++ r

/-- The scoped helper `Transaction`.  `startRes`, `commitRes`, `rollbackRes`
are the outcomes of the engine calls made by the inner `Start`/`Commit`/
`Rollback`; `fnOut` is the behaviour of the supplied function.  Returns the
final controller state, the helper's outcome, and the trace of events.  The
source's `defer` runs on every exit after a successful `Start`: it rolls
back whenever `done` is false or a fault was recovered, then re-raises the
fault. -/
def Transact.transaction {DB Tx : Type} (t : Transact DB Tx)
    (startRes : Except String Tx) (fnOut : FnOut)
    (commitRes : Option String) (rollbackRes : Option String) :
    Transact DB Tx × TxnOut × List Ev :=
  let s := t.start startRes
  match s.2.1 with
  | some e => (s.1, .ret (some e), [])
  | none =>
      match fnOut with
      | .err fe =>
          let r := s.1.rollback rollbackRes
          match r.2 with
          | none => (r.1, .ret (some fe), [.evStart, .evRollback true])
          | some re =>
              (r.1, .ret (some (joinErr (some fe) re)), [.evStart, .evRollback false])
      | .fault =>
          let r := s.1.rollback rollbackRes
          match r.2 with
          | none => (r.1, .fault, [.evStart, .evRollback true, .evReraise])
          | some _ => (r.1, .fault, [.evStart, .evRollback false, .evReraise])
      | .ok =>
          let cr := s.1.commit commitRes
          match cr.2 with
          | none => (cr.1, .ret none, [.evStart, .evCommit true])
          | some ce =>
              let rr := cr.1.rollback rollbackRes
              match rr.2 with
              | none =>
                  (rr.1, .ret (some ("failed to commit: " ++ ce)),
                    [.evStart, .evCommit false, .evRollback true])
              | some re =>
                  (rr.1, .ret (some (joinErr (some ("failed to commit: " ++ ce)) re)),
                    [.evStart, .evCommit false, .evRollback false])

/-- One controller operation together with the outcome of the engine call it
performs. -/
inductive TOp (Tx : Type) where
  | start : Except String Tx → TOp Tx
  | commit : Option String → TOp Tx
  | rollback : Option String → TOp Tx

/-- State component of one operation. -/
def Transact.stepOp {DB Tx : Type} (t : Transact DB Tx) : TOp Tx → Transact DB Tx
  | .start e => (t.start e).1
  | .commit e => (t.commit e).1
  | .rollback e => (t.rollback e).1

/-- Run a sequence of operations. -/
def Transact.runOps {DB Tx : Type} (t : Transact DB Tx) (ops : List (TOp Tx)) :
    Transact DB Tx :=
  ops.foldl Transact.stepOp t

/-- The state reached from a fresh controller by one successful `Start`. -/
def c4Reached : Transact Nat Nat :=
  Transact.runOps (newTransactWithDb 0) [TOp.start (Except.ok 0)]

/-- The controller's state invariant, as the code maintains it: the counter
is non-negative; it is zero exactly when no transaction is active; an idle
controller has an empty parent stack; and at positive depth the counter is
one more than the parent-stack length. -/
def Transact.inv {DB Tx : Type} (t : Transact DB Tx) : Prop :=
  0 ≤ t.nested ∧ (t.nested = 0 ↔ t.tx = none) ∧ (t.tx = none → t.stack = []) ∧
    (0 < t.nested → t.nested = (t.stack.length : Int) + 1)

instance {DB Tx : Type} [DecidableEq Tx] (t : Transact DB Tx) : Decidable t.inv := by
  unfold Transact.inv; infer_instance

/-! ### A savepoint engine, and the controller driving it

The database engine (bun over SQLite) is external to the repository; its
savepoint semantics is standard SQL: an open transaction or savepoint holds
a layer of pending writes; committing the innermost level merges its layer
into the enclosing level (or into the database when it is the outermost
level); rolling back the innermost level discards its layer.  `Sys` couples
this engine with the embedded controller, issuing exactly the engine calls
the controller's code issues, with writes going through `Db()` (the
innermost active level). -/

structure SpEngine where
  committed : List String := []
  layers : List (List String) := []
  deriving Repr, DecidableEq

/-- Open a transaction (no open layer) or a savepoint (inside the innermost
open layer): a fresh empty layer of pending writes. -/
def SpEngine.push (e : SpEngine) : SpEngine :=
  { e with layers := [] :: e.layers }

/-- A write issued against the innermost open level (autocommitted when no
transaction is open). -/
def SpEngine.write (e : SpEngine) (s : String) : SpEngine :=
  match e.layers with
  | [] => { e with committed := e.committed ++ [s] }
  | l :: ls => { e with layers := (l ++ [s]) :: ls }

/-- Commit the innermost open level: merge its writes into the enclosing
level, or into the database when it is the outermost level. -/
def SpEngine.commitTop (e : SpEngine) : SpEngine :=
  match e.layers with
  | [] => e
  | [l] => { committed := e.committed ++ l, layers := [] }
  | l :: l2 :: ls => { e with layers := (l2 ++ l) :: ls }

/-- Roll back the innermost open level: discard its writes. -/
def SpEngine.rollbackTop (e : SpEngine) : SpEngine :=
  { e with layers := e.layers.tail }

/-- The controller coupled with the engine.  The controller's `Tx` handles
are engine levels, `DB` is trivial. -/
structure Sys where
  eng : SpEngine
  ctl : Transact Unit Nat
  deriving Repr

def Sys.init : Sys :=
  { eng := {}, ctl := newTransactWithDb () }

/-- `Start`: the engine call the code makes (root begin or savepoint begin)
always succeeds here and yields a fresh level. -/
def Sys.start (s : Sys) : Sys :=
  { eng := s.eng.push, ctl := (s.ctl.start (Except.ok s.eng.layers.length)).1 }

/-- A write through `Db()`: it lands in the innermost active level. -/
def Sys.write (s : Sys) (x : String) : Sys :=
  { s with eng := s.eng.write x }

/-- `Commit`: the code calls `t.tx.Commit()` only when a transaction is
active, committing the innermost level. -/
def Sys.commit (s : Sys) : Sys :=
  match s.ctl.tx with
  | none => s
  | some _ => { eng := s.eng.commitTop, ctl := (s.ctl.commit none).1 }

/-- `Rollback`: the code calls `t.tx.Rollback()` only when a transaction is
active, rolling back the innermost level. -/
def Sys.rollback (s : Sys) : Sys :=
  match s.ctl.tx with
  | none => s
  | some _ => { eng := s.eng.rollbackTop, ctl := (s.ctl.rollback none).1 }

/-- The sequence of the spec's inner-rollback test:
Start; write "outer"; Start; write "inner"; Rollback; Commit. -/
def sysC2Run : Sys :=
  (((((Sys.init.start).write "outer").start.write "inner").rollback).commit)

/-! ### Connection cache (src/open.db.go)

Go maps keyed by name are embedded as association lists; `time.Time` as
`Nat`.  The handle provider (`OpenDB`) is external I/O, so `GetOrOpen`
takes its outcome as an argument and additionally reports the list of
provider invocations it made. -/

/-- First value stored under a key (Go map lookup). -/
def lookupKey {α : Type} : List (String × α) → String → Option α
  | [], _ => none
  | (k0, v0) :: rest, k => if k0 = k then some v0 else lookupKey rest k

/-- Store a value under a key (Go map assignment): replace the binding if
present, append otherwise. -/
def setKey {α : Type} : List (String × α) → String → α → List (String × α)
  | [], k, v => [(k, v)]
  | (k0, v0) :: rest, k, v =>
      if k0 = k then (k, v) :: rest else (k0, v0) :: setKey rest k v

/-- Delete a key (Go `delete`). -/
def eraseKey {α : Type} : List (String × α) → String → List (String × α)
  | [], _ => []
  | (k0, v0) :: rest, k =>
      if k0 = k then eraseKey rest k else (k0, v0) :: eraseKey rest k

/-- The `Cache` struct: handle map and last-access table.  Zero value: both
empty. -/
structure Cache (DB : Type) where
  cache : List (String × DB) := []
  lastAccessed : List (String × Nat) := []
  deriving Repr

/-- `Has`: non-mutating probe. -/
def Cache.has {DB : Type} (c : Cache DB) (name : String) : Option DB :=
  lookupKey c.cache name

/-- `Get`: cached handle or a not-found error; refreshes `lastAccessed` on
success.  Never opens. -/
def Cache.get {DB : Type} (c : Cache DB) (name : String) (now : Nat) :
    Except String DB × Cache DB :=
  match lookupKey c.cache name with
  | none => (.error ("database " ++ name ++ " not found in cache"), c)
  | some d => (.ok d, { c with lastAccessed := setKey c.lastAccessed name now })

/-- `GetOrOpen`.  `openRes` is the outcome of the `OpenDB(name)` call made
when the name is absent.  The deferred block records `lastAccessed` exactly
when no error is returned.  Third component: names passed to the provider. -/
def Cache.getOrOpen {DB : Type} (c : Cache DB) (name : String) (now : Nat)
    (openRes : Except String DB) : Except String DB × Cache DB × List String :=
  match lookupKey c.cache name with
  | some d => (.ok d, { c with lastAccessed := setKey c.lastAccessed name now }, [])
  | none =>
      match openRes with
      | .error e => (.error e, c, [name])
      | .ok d =>
          (.ok d,
            { cache := setKey c.cache name d,
              lastAccessed := setKey c.lastAccessed name now }, [name])

/-- `Set`: insert only if absent. -/
def Cache.set {DB : Type} (c : Cache DB) (name : String) (d : DB) (now : Nat) :
    Bool × Cache DB :=
  match lookupKey c.cache name with
  | some _ => (false, c)
  | none =>
      (true,
        { cache := setKey c.cache name d,
          lastAccessed := setKey c.lastAccessed name now })

/-- `maxInactiveDuration = 30 * time.Minute` (times in seconds here). -/
def maxInactiveDuration : Nat := 30 * 60

/-- Body of the sweep loop for one `lastAccessed` entry: when the entry is
idle past the threshold, close its handle if one is cached (`closeFails`
tells whether that close errors; the error is only logged) and delete the
entry from both maps.  Accumulator: state, names closed, names whose close
failed (the log). -/
def cleanupStep {DB : Type} (now : Nat) (closeFails : String → Bool)
    (acc : Cache DB × List String × List String) (entry : String × Nat) :
    Cache DB × List String × List String :=
  if maxInactiveDuration < now - entry.2 then
    ({ cache := eraseKey acc.1.cache entry.1,
       lastAccessed := eraseKey acc.1.lastAccessed entry.1 },
      (match lookupKey acc.1.cache entry.1 with
        | some _ => acc.2.1 ++ [entry.1]
        | none => acc.2.1),
      (match lookupKey acc.1.cache entry.1 with
        | some _ => if closeFails entry.1 then acc.2.2 ++ [entry.1] else acc.2.2
        | none => acc.2.2))
  else acc

/-- One pass of the background sweep (`Cleanup`'s per-tick loop over
`lastAccessed`). -/
def Cache.cleanupPass {DB : Type} (c : Cache DB) (now : Nat)
    (closeFails : String → Bool) : Cache DB × List String × List String :=
  c.lastAccessed.foldl (cleanupStep now closeFails) (c, [], [])

/-- Is some entry of `l` keyed `k` idle past the threshold at `now`? -/
def staleKeyIn (l : List (String × Nat)) (now : Nat) (k : String) : Bool :=
  l.any fun e => decide (e.1 = k ∧ maxInactiveDuration < now - e.2)

/-- `NewTransactFor`: resolve the handle through `Cache.Get` and bind a
fresh controller to it.  Third component: provider invocations (none —
`Get` never opens). -/
def newTransactFor (Tx : Type) {DB : Type} (c : Cache DB) (name : String) (now : Nat) :
    (Option (Transact DB Tx) × Option String) × Cache DB × List String :=
  match c.get name now with
  | (.error e, c1) => ((none, some e), c1, [])
  | (.ok d, c1) => ((some { db := d }, none), c1, [])

/-- A cache operation together with the engine/provider outcomes it
consumes. -/
inductive CacheOp (DB : Type) where
  | has : String → CacheOp DB
  | get : String → Nat → CacheOp DB
  | getOrOpen : String → Nat → Except String DB → CacheOp DB
  | set : String → DB → Nat → CacheOp DB
  | sweep : Nat → (String → Bool) → CacheOp DB

/-- State component of one cache operation. -/
def Cache.stepOp {DB : Type} (c : Cache DB) : CacheOp DB → Cache DB
  | .has _ => c
  | .get n now => (c.get n now).2
  | .getOrOpen n now r => (c.getOrOpen n now r).2.1
  | .set n d now => (c.set n d now).2
  | .sweep now f => (c.cleanupPass now f).1

/-- Run a sequence of cache operations. -/
def Cache.runOps {DB : Type} (c : Cache DB) (ops : List (CacheOp DB)) : Cache DB :=
  ops.foldl Cache.stepOp c

/-- Key agreement between the handle map and the last-access table. -/
def Cache.agree {DB : Type} (c : Cache DB) : Prop :=
  ∀ k, (lookupKey c.cache k).isSome = (lookupKey c.lastAccessed k).isSome

/-! ### Controller lemmas -/

/-- Every single operation preserves the controller invariant. -/
theorem Transact.inv_stepOp {DB Tx : Type} {t : Transact DB Tx} (h : t.inv) (op : TOp Tx) :
    (t.stepOp op).inv := by
  obtain ⟨h0, h1, h2, h3⟩ := h
  cases op with
  | start e =>
      cases htx : t.tx with
      | none =>
          cases e with
          | error s =>
              simp only [Transact.stepOp, Transact.start, htx]
              exact ⟨h0, h1, h2, h3⟩
          | ok tx0 =>
              simp only [Transact.stepOp, Transact.start, htx]
              refine ⟨by norm_num, by simp, by simp, ?_⟩
              intro _
              simp
      | some a =>
          have hpos : 0 < t.nested := by
            have hne : t.nested ≠ 0 := fun hn => by
              have := h1.mp hn; rw [htx] at this; cases this
            omega
          have hlen : t.nested = (t.stack.length : Int) + 1 := h3 hpos
          cases e with
          | error s =>
              simp only [Transact.stepOp, Transact.start, htx]
              exact ⟨h0, h1, h2, h3⟩
          | ok sp =>
              simp only [Transact.stepOp, Transact.start, htx]
              refine ⟨by dsimp only; omega, ?_, by simp, ?_⟩
              · constructor
                · intro hz; dsimp only at hz; omega
                · intro hz; cases hz
              · intro _
                dsimp only
                simp [List.length_append]
                omega
  | commit e =>
      cases htx : t.tx with
      | none =>
          simp only [Transact.stepOp, Transact.commit, htx]
          exact ⟨h0, h1, h2, h3⟩
      | some a =>
          have hpos : 0 < t.nested := by
            have hne : t.nested ≠ 0 := fun hn => by
              have := h1.mp hn; rw [htx] at this; cases this
            omega
          have hlen : t.nested = (t.stack.length : Int) + 1 := h3 hpos
          by_cases hgt : 1 < t.nested
          · cases e with
            | some s =>
                simp only [Transact.stepOp, Transact.commit, htx, if_pos hgt]
                exact ⟨h0, h1, h2, h3⟩
            | none =>
                have hne : t.stack ≠ [] := by
                  intro hnil; rw [hnil] at hlen; simp at hlen; omega
                have hlast : t.stack.getLast? = some (t.stack.getLast hne) :=
                  List.getLast?_eq_getLast _ hne
                have hlpos : 1 ≤ t.stack.length := by
                  have := List.length_pos.mpr hne; omega
                simp only [Transact.stepOp, Transact.commit, htx, if_pos hgt, hlast]
                refine ⟨by dsimp only; omega, ?_, by simp, ?_⟩
                · constructor
                  · intro hz; dsimp only at hz; omega
                  · intro hz; cases hz
                · intro _
                  dsimp only
                  rw [List.length_dropLast]
                  omega
          · have hone : t.nested = 1 := by omega
            cases e with
            | some s =>
                simp only [Transact.stepOp, Transact.commit, htx, if_neg hgt]
                exact ⟨h0, h1, h2, h3⟩
            | none =>
                simp only [Transact.stepOp, Transact.commit, htx, if_neg hgt]
                refine ⟨by dsimp only; omega, ?_, by simp, ?_⟩
                · dsimp only; simp; omega
                · intro hz; dsimp only at hz ⊢; omega
  | rollback e =>
      cases htx : t.tx with
      | none =>
          simp only [Transact.stepOp, Transact.rollback, htx]
          exact ⟨h0, h1, h2, h3⟩
      | some a =>
          have hpos : 0 < t.nested := by
            have hne : t.nested ≠ 0 := fun hn => by
              have := h1.mp hn; rw [htx] at this; cases this
            omega
          have hlen : t.nested = (t.stack.length : Int) + 1 := h3 hpos
          by_cases hgt : 1 < t.nested
          · cases e with
            | some s =>
                simp only [Transact.stepOp, Transact.rollback, htx, if_pos hgt]
                exact ⟨h0, h1, h2, h3⟩
            | none =>
                have hne : t.stack ≠ [] := by
                  intro hnil; rw [hnil] at hlen; simp at hlen; omega
                have hlast : t.stack.getLast? = some (t.stack.getLast hne) :=
                  List.getLast?_eq_getLast _ hne
                have hlpos : 1 ≤ t.stack.length := by
                  have := List.length_pos.mpr hne; omega
                simp only [Transact.stepOp, Transact.rollback, htx, if_pos hgt, hlast]
                refine ⟨by dsimp only; omega, ?_, by simp, ?_⟩
                · constructor
                  · intro hz; dsimp only at hz; omega
                  · intro hz; cases hz
                · intro _
                  dsimp only
                  rw [List.length_dropLast]
                  omega
          · have hone : t.nested = 1 := by omega
            simp only [Transact.stepOp, Transact.rollback, htx, if_neg hgt]
            refine ⟨by dsimp only; omega, ?_, by simp, ?_⟩
            · dsimp only; simp; omega
            · intro hz; dsimp only at hz ⊢; omega

/-- The invariant holds along any run from an invariant state. -/
theorem Transact.inv_runOps {DB Tx : Type} {t : Transact DB Tx} (h : t.inv)
    (ops : List (TOp Tx)) : (t.runOps ops).inv := by
  induction ops generalizing t with
  | nil => exact h
  | cons op rest ih => exact ih (Transact.inv_stepOp h op)

/-- A fresh controller satisfies the invariant. -/
theorem Transact.inv_new {DB Tx : Type} (d : DB) : (newTransactWithDb d : Transact DB Tx).inv := by
  refine ⟨by simp [newTransactWithDb], by simp [newTransactWithDb],
    by simp [newTransactWithDb], ?_⟩
  intro hz
  simp [newTransactWithDb] at hz

/-- An engine-successful `Start` never returns an error. -/
theorem Transact.start_ok_snd {DB Tx : Type} (t : Transact DB Tx) (tx0 : Tx) :
    (t.start (.ok tx0)).2.1 = none := by
  cases htx : t.tx <;> simp [Transact.start, htx]

/-- An engine-successful `Start` activates the handle the engine returned. -/
theorem Transact.start_ok_tx {DB Tx : Type} (t : Transact DB Tx) (tx0 : Tx) :
    (t.start (.ok tx0)).1.tx = some tx0 := by
  cases htx : t.tx <;> simp [Transact.start, htx]

/-- With a transaction active and the engine succeeding, `Rollback` returns
no error. -/
theorem Transact.rollback_ok_snd {DB Tx : Type} (t : Transact DB Tx) (a : Tx)
    (h : t.tx = some a) : (t.rollback none).2 = none := by
  simp only [Transact.rollback, h]
  by_cases hgt : 1 < t.nested
  · rw [if_pos hgt]
    cases hl : t.stack.getLast? <;> simp
  · rw [if_neg hgt]

/-- With a transaction active and the engine succeeding, `Commit` returns no
error. -/
theorem Transact.commit_ok_snd {DB Tx : Type} (t : Transact DB Tx) (a : Tx)
    (h : t.tx = some a) : (t.commit none).2 = none := by
  simp only [Transact.commit, h]
  by_cases hgt : 1 < t.nested
  · rw [if_pos hgt]
    cases hl : t.stack.getLast? <;> simp
  · rw [if_neg hgt]

/-- With a transaction active, a failing engine commit leaves the state
unchanged and surfaces the engine error. -/
theorem Transact.commit_err_eq {DB Tx : Type} (t : Transact DB Tx) (a : Tx)
    (h : t.tx = some a) (e : String) : t.commit (some e) = (t, some e) := by
  simp only [Transact.commit, h]
  by_cases hgt : 1 < t.nested
  · rw [if_pos hgt]
  · rw [if_neg hgt]

/-! ### Claim theorems -/

/-- C1: with an active transaction (`depth > 0`), a successful `Start` makes
its engine call as a savepoint begin on the current active handle (never a
root begin), pushes the previously active handle onto the parent stack, and
increments the depth by one. -/
theorem claim1_nested_start_savepoint {DB Tx : Type} (t : Transact DB Tx)
    (hinv : t.inv) (hpos : 0 < t.nested) (sp : Tx) :
    ∃ a, t.tx = some a ∧
      t.start (.ok sp) =
        ({ t with tx := some sp, stack := t.stack ++ [a], nested := t.nested + 1 },
          none, BeginCall.savepoint a) := by
  obtain ⟨h0, h1, h2, h3⟩ := hinv
  cases htx : t.tx with
  | none =>
      have := h1.mpr htx
      omega
  | some a => exact ⟨a, rfl, by simp [Transact.start, htx]⟩

/-- Witness for C1 at a depth-1 controller. -/
theorem claim1_witness :
    (Transact.mk 0 (some 5) [] 1 : Transact Nat Nat).inv ∧
    (∃ a, (Transact.mk 0 (some 5) [] 1 : Transact Nat Nat).tx = some a ∧
      (Transact.mk 0 (some 5) [] 1 : Transact Nat Nat).start (.ok 7) =
        (Transact.mk 0 (some 7) ([] ++ [a]) (1 + 1), none, BeginCall.savepoint a)) :=
  ⟨by decide, claim1_nested_start_savepoint _ (by decide) (by decide) 7⟩

/-- C2: at depth > 1 a successful `Rollback` unwinds only the innermost
savepoint and restores the parent handle; and in the coupled engine model
the sequence Start; write "outer"; Start; write "inner"; Rollback; Commit
persists only the outer write (row count 1). -/
theorem claim2_rollback_innermost {DB Tx : Type} (t : Transact DB Tx)
    (hinv : t.inv) (hd : 1 < t.nested) :
    (∃ p rest, t.stack = rest ++ [p] ∧
        t.rollback none =
          ({ t with tx := some p, stack := rest, nested := t.nested - 1 }, none)) ∧
    sysC2Run.eng.committed = ["outer"] ∧ sysC2Run.eng.committed.length = 1 ∧
    sysC2Run.eng.layers = [] := by
  obtain ⟨h0, h1, h2, h3⟩ := hinv
  have hpos : 0 < t.nested := by omega
  have hlen := h3 hpos
  have hne : t.stack ≠ [] := by
    intro hnil; rw [hnil] at hlen; simp at hlen; omega
  cases htx : t.tx with
  | none =>
      have := h1.mpr htx
      omega
  | some a =>
      refine ⟨⟨t.stack.getLast hne, t.stack.dropLast,
        (List.dropLast_append_getLast hne).symm, ?_⟩, rfl, rfl, rfl⟩
      have hlast := List.getLast?_eq_getLast t.stack hne
      simp only [Transact.rollback, htx]
      rw [if_pos hd, hlast]

/-- Witness for C2 at a depth-2 controller. -/
theorem claim2_witness :
    (Transact.mk 0 (some 9) [3] 2 : Transact Nat Nat).inv ∧
    ((∃ p rest, (Transact.mk 0 (some 9) [3] 2 : Transact Nat Nat).stack = rest ++ [p] ∧
        (Transact.mk 0 (some 9) [3] 2 : Transact Nat Nat).rollback none =
          (Transact.mk 0 (some p) rest (2 - 1), none)) ∧
      sysC2Run.eng.committed = ["outer"] ∧ sysC2Run.eng.committed.length = 1 ∧
      sysC2Run.eng.layers = []) :=
  ⟨by decide, claim2_rollback_innermost _ (by decide) (by decide)⟩

/-- C4 counterexample: after one successful `Start` the controller has
`depth = 1`, an active transaction, and an empty parent stack, so the
claimed chain `depth = 0 ⇔ active = none ⇔ parents = []` fails. -/
theorem claim4_counterexample :
    ¬ ((c4Reached.nested = 0 ↔ c4Reached.tx = none) ∧
       (c4Reached.tx = none ↔ c4Reached.stack = []) ∧
       (0 < c4Reached.nested →
         c4Reached.nested = (c4Reached.stack.length : Int) + 1)) := by
  decide

/-- C4 amended: every operation sequence preserves `depth = 0 ⇔ active =
none`, an idle controller has an empty parent stack, and at `depth > 0` the
depth is the parent-stack length plus one. -/
theorem claim4_amended {DB Tx : Type} (d : DB) (ops : List (TOp Tx)) :
    ((Transact.runOps (newTransactWithDb d) ops).nested = 0 ↔
      (Transact.runOps (newTransactWithDb d) ops).tx = none) ∧
    ((Transact.runOps (newTransactWithDb d) ops).tx = none →
      (Transact.runOps (newTransactWithDb d) ops).stack = []) ∧
    (0 < (Transact.runOps (newTransactWithDb d) ops).nested →
      (Transact.runOps (newTransactWithDb d) ops).nested =
        ((Transact.runOps (newTransactWithDb d) ops).stack.length : Int) + 1) := by
  obtain ⟨h0, h1, h2, h3⟩ := Transact.inv_runOps (Transact.inv_new d) ops
  exact ⟨h1, h2, h3⟩

/-- Witness for the amended C4 at a concrete run. -/
theorem claim4_witness :
    (c4Reached.nested = 0 ↔ c4Reached.tx = none) ∧
    (c4Reached.tx = none → c4Reached.stack = []) ∧
    (0 < c4Reached.nested →
      c4Reached.nested = (c4Reached.stack.length : Int) + 1) :=
  claim4_amended 0 [TOp.start (Except.ok 0)]

/-- C7: at `depth = 0` both `Commit` and `Rollback` fail with the
protocol-misuse error and leave the controller unchanged (idle, no active
transaction). -/
theorem claim7_idle_commit_rollback {DB Tx : Type} (t : Transact DB Tx)
    (hinv : t.inv) (h0 : t.nested = 0) (ce re : Option String) :
    t.tx = none ∧
    t.commit ce = (t, some "cannot commit: no tx active") ∧
    t.rollback re = (t, some "cannot rollback: no tx active") := by
  have htx : t.tx = none := hinv.2.1.mp h0
  exact ⟨htx, by simp [Transact.commit, htx], by simp [Transact.rollback, htx]⟩

/-- Witness for C7 at a fresh controller. -/
theorem claim7_witness :
    (newTransactWithDb 0 : Transact Nat Nat).tx = none ∧
    (newTransactWithDb 0 : Transact Nat Nat).commit none =
      ((newTransactWithDb 0 : Transact Nat Nat), some "cannot commit: no tx active") ∧
    (newTransactWithDb 0 : Transact Nat Nat).rollback (some "engine") =
      ((newTransactWithDb 0 : Transact Nat Nat), some "cannot rollback: no tx active") :=
  claim7_idle_commit_rollback _ (Transact.inv_new 0) rfl none (some "engine")

/-- C8: a failing engine rollback at depth 1 still clears the controller to
the idle state and propagates the engine error. -/
theorem claim8_rollback_depth1_failure {DB Tx : Type} (t : Transact DB Tx)
    (hinv : t.inv) (h1 : t.nested = 1) (e : String) :
    t.rollback (some e) =
      ({ t with tx := none, stack := [], nested := 0 }, some e) := by
  obtain ⟨h0, hiff, h2, h3⟩ := hinv
  cases htx : t.tx with
  | none =>
      have := hiff.mpr htx
      omega
  | some a =>
      have hgt : ¬ 1 < t.nested := by omega
      simp only [Transact.rollback, htx]
      rw [if_neg hgt, h1]
      norm_num

/-- Witness for C8 at a depth-1 controller. -/
theorem claim8_witness :
    (Transact.mk 0 (some 5) [] 1 : Transact Nat Nat).rollback (some "disk full") =
      (Transact.mk 0 none [] 0, some "disk full") :=
  claim8_rollback_depth1_failure _ (by decide) (by decide) "disk full"

/-- C3: after a successful `Start`, on every exit path of the scoped helper
(fn returns nil, fn returns an error, fn faults, or the commit fails) with
engine rollbacks succeeding, exactly one finalisation takes effect: on fn
success with a successful commit exactly one `Commit` and no `Rollback`; on
fn error or fault exactly one `Rollback` and no `Commit`, the fault being
re-raised after the rollback; on a failed commit the rollback is the one
effective finalisation. -/
theorem claim3_transaction_one_finalizer {DB Tx : Type} (t : Transact DB Tx)
    (tx0 : Tx) (fnOut : FnOut) (commitRes : Option String) :
    ((t.transaction (.ok tx0) fnOut commitRes none).2.2.count (Ev.evCommit true) +
        (t.transaction (.ok tx0) fnOut commitRes none).2.2.count (Ev.evRollback true)
      = 1) ∧
    (fnOut = .ok → commitRes = none →
      (t.transaction (.ok tx0) fnOut commitRes none).2.2 =
        [Ev.evStart, Ev.evCommit true] ∧
      (t.transaction (.ok tx0) fnOut commitRes none).2.1 = TxnOut.ret none) ∧
    (∀ e, fnOut = .err e →
      (t.transaction (.ok tx0) fnOut commitRes none).2.2 =
        [Ev.evStart, Ev.evRollback true] ∧
      (t.transaction (.ok tx0) fnOut commitRes none).2.1 = TxnOut.ret (some e)) ∧
    (fnOut = .fault →
      (t.transaction (.ok tx0) fnOut commitRes none).2.2 =
        [Ev.evStart, Ev.evRollback true, Ev.evReraise] ∧
      (t.transaction (.ok tx0) fnOut commitRes none).2.1 = TxnOut.fault) ∧
    (∀ ce, fnOut = .ok → commitRes = some ce →
      (t.transaction (.ok tx0) fnOut commitRes none).2.2 =
        [Ev.evStart, Ev.evCommit false, Ev.evRollback true]) := by
  have hs1tx := Transact.start_ok_tx t tx0
  have hrb := Transact.rollback_ok_snd (t.start (.ok tx0)).1 tx0 hs1tx
  cases fnOut with
  | ok =>
      cases commitRes with
      | none =>
          have hc := Transact.commit_ok_snd (t.start (.ok tx0)).1 tx0 hs1tx
          have heval : (t.transaction (.ok tx0) .ok none none).2 =
              (TxnOut.ret none, [Ev.evStart, Ev.evCommit true]) := by
            simp only [Transact.transaction, Transact.start_ok_snd, hc]
          have ht : (t.transaction (.ok tx0) .ok none none).2.2 =
              [Ev.evStart, Ev.evCommit true] := by rw [heval]
          have ho : (t.transaction (.ok tx0) .ok none none).2.1 = TxnOut.ret none := by
            rw [heval]
          refine ⟨by rw [ht]; decide, fun _ _ => ⟨ht, ho⟩, ?_, ?_, ?_⟩
          · intro e h; contradiction
          · intro h; contradiction
          · intro ce _ h; contradiction
      | some ce =>
          have hc := Transact.commit_err_eq (t.start (.ok tx0)).1 tx0 hs1tx ce
          have heval : (t.transaction (.ok tx0) .ok (some ce) none).2 =
              (TxnOut.ret (some ("failed to commit: " ++ ce)),
                [Ev.evStart, Ev.evCommit false, Ev.evRollback true]) := by
            simp only [Transact.transaction, Transact.start_ok_snd, hc, hrb]
          have ht : (t.transaction (.ok tx0) .ok (some ce) none).2.2 =
              [Ev.evStart, Ev.evCommit false, Ev.evRollback true] := by rw [heval]
          refine ⟨by rw [ht]; decide, ?_, ?_, ?_, ?_⟩
          · intro _ h; contradiction
          · intro e h; contradiction
          · intro h; contradiction
          · intro ce2 _ _
            exact ht
  | err fe =>
      have heval : (t.transaction (.ok tx0) (.err fe) commitRes none).2 =
          (TxnOut.ret (some fe), [Ev.evStart, Ev.evRollback true]) := by
        simp only [Transact.transaction, Transact.start_ok_snd, hrb]
      have ht : (t.transaction (.ok tx0) (.err fe) commitRes none).2.2 =
          [Ev.evStart, Ev.evRollback true] := by rw [heval]
      have ho : (t.transaction (.ok tx0) (.err fe) commitRes none).2.1 =
          TxnOut.ret (some fe) := by rw [heval]
      refine ⟨by rw [ht]; decide, ?_, ?_, ?_, ?_⟩
      · intro h; contradiction
      · intro e h
        have : fe = e := by injection h
        exact ⟨ht, by rw [ho, this]⟩
      · intro h; contradiction
      · intro ce _ h; contradiction
  | fault =>
      have heval : (t.transaction (.ok tx0) .fault commitRes none).2 =
          (TxnOut.fault, [Ev.evStart, Ev.evRollback true, Ev.evReraise]) := by
        simp only [Transact.transaction, Transact.start_ok_snd, hrb]
      have ht : (t.transaction (.ok tx0) .fault commitRes none).2.2 =
          [Ev.evStart, Ev.evRollback true, Ev.evReraise] := by rw [heval]
      have ho : (t.transaction (.ok tx0) .fault commitRes none).2.1 = TxnOut.fault := by
        rw [heval]
      refine ⟨by rw [ht]; decide, ?_, ?_, fun _ => ⟨ht, ho⟩, ?_⟩
      · intro h; contradiction
      · intro e h; contradiction
      · intro ce h; contradiction

/-! ### Association-list lemmas -/

theorem lookupKey_setKey {α : Type} (l : List (String × α)) (k k' : String) (v : α) :
    lookupKey (setKey l k v) k' = if k' = k then some v else lookupKey l k' := by
  induction l with
  | nil =>
      by_cases h : k' = k
      · simp [setKey, lookupKey, h]
      · simp [setKey, lookupKey, h, Ne.symm h]
  | cons hd tl ih =>
      obtain ⟨k0, v0⟩ := hd
      by_cases h0 : k0 = k
      · subst h0
        by_cases h : k' = k0
        · simp [setKey, lookupKey, h]
        · simp [setKey, lookupKey, h, Ne.symm h]
      · by_cases h1 : k0 = k'
        · have hk : ¬ k' = k := fun hh => h0 (h1.trans hh)
          simp [setKey, lookupKey, h0, h1, hk]
        · simp [setKey, lookupKey, h0, h1, ih]

theorem lookupKey_eraseKey_self {α : Type} (l : List (String × α)) (k : String) :
    lookupKey (eraseKey l k) k = none := by
  induction l with
  | nil => rfl
  | cons hd tl ih =>
      obtain ⟨k0, v0⟩ := hd
      by_cases h : k0 = k
      · simp [eraseKey, h, ih]
      · simp [eraseKey, lookupKey, h, ih]

theorem lookupKey_eraseKey_ne {α : Type} (l : List (String × α)) (k k' : String)
    (h : k' ≠ k) : lookupKey (eraseKey l k) k' = lookupKey l k' := by
  induction l with
  | nil => rfl
  | cons hd tl ih =>
      obtain ⟨k0, v0⟩ := hd
      by_cases h0 : k0 = k
      · subst h0
        simp [eraseKey, lookupKey, ih, Ne.symm h]
      · by_cases h1 : k0 = k'
        · simp [eraseKey, lookupKey, h0, h1, h]
        · simp [eraseKey, lookupKey, h0, h1, ih]

theorem lookupKey_of_mem_nodup {α : Type} {l : List (String × α)} {k : String} {v : α}
    (hm : (k, v) ∈ l) (hnd : (l.map Prod.fst).Nodup) : lookupKey l k = some v := by
  induction l with
  | nil => cases hm
  | cons hd tl ih =>
      obtain ⟨k0, v0⟩ := hd
      rcases List.mem_cons.mp hm with heq | hmem
      · obtain ⟨hk, hv⟩ := Prod.mk.injEq _ _ _ _ ▸ heq
        simp [lookupKey, hk.symm, hv.symm]
      · have hk0 : k0 ≠ k := by
          intro hh
          have : k ∈ tl.map Prod.fst := List.mem_map.mpr ⟨(k, v), hmem, rfl⟩
          rw [List.map_cons] at hnd
          exact (List.nodup_cons.mp hnd).1 (hh ▸ this)
        simp [lookupKey, hk0, ih hmem (by rw [List.map_cons] at hnd; exact (List.nodup_cons.mp hnd).2)]

theorem staleKeyIn_false_of_not_mem {l : List (String × Nat)} {now : Nat} {k : String}
    (h : k ∉ l.map Prod.fst) : staleKeyIn l now k = false := by
  induction l with
  | nil => rfl
  | cons hd tl ih =>
      rw [List.map_cons] at h
      have h1 : hd.1 ≠ k := fun hh => h (List.mem_cons.mpr (Or.inl hh.symm))
      have h2 : k ∉ tl.map Prod.fst := fun hh => h (List.mem_cons.mpr (Or.inr hh))
      simp only [staleKeyIn, List.any_cons]
      have hh : decide (hd.1 = k ∧ maxInactiveDuration < now - hd.2) = false :=
        decide_eq_false fun hc => h1 hc.1
      rw [hh, Bool.false_or]
      exact ih h2

theorem staleKeyIn_of_mem_nodup {l : List (String × Nat)} {now : Nat} {k : String}
    {tm : Nat} (hm : (k, tm) ∈ l) (hnd : (l.map Prod.fst).Nodup) :
    staleKeyIn l now k = decide (maxInactiveDuration < now - tm) := by
  induction l with
  | nil => cases hm
  | cons hd tl ih =>
      rw [List.map_cons] at hnd
      obtain ⟨hnotin, hnd2⟩ := List.nodup_cons.mp hnd
      rcases List.mem_cons.mp hm with heq | hmem
      · subst heq
        simp only [staleKeyIn, List.any_cons]
        have hrest :
            tl.any (fun e => decide (e.1 = k ∧ maxInactiveDuration < now - e.2)) = false :=
          staleKeyIn_false_of_not_mem hnotin
        rw [hrest, Bool.or_false]
        simp
      · have hk0 : hd.1 ≠ k := fun hh =>
          hnotin (hh.symm ▸ List.mem_map.mpr ⟨(k, tm), hmem, rfl⟩)
        simp only [staleKeyIn, List.any_cons]
        have hh : decide (hd.1 = k ∧ maxInactiveDuration < now - hd.2) = false :=
          decide_eq_false fun hc => hk0 hc.1
        rw [hh, Bool.false_or]
        exact ih hmem hnd2

/-! ### Sweep lemmas -/

theorem stale_erase_lookup {α : Type} (m : List (String × α)) (e : String × Nat)
    (tl : List (String × Nat)) (now : Nat) (k : String)
    (hs : maxInactiveDuration < now - e.2) :
    (if staleKeyIn tl now k then none else lookupKey (eraseKey m e.1) k)
      = (if staleKeyIn (e :: tl) now k then none else lookupKey m k) := by
  have hst : staleKeyIn (e :: tl) now k = (decide (e.1 = k) || staleKeyIn tl now k) := by
    simp only [staleKeyIn, List.any_cons]
    congr 1
    simp [hs]
  rw [hst]
  by_cases hk : e.1 = k
  · rw [decide_eq_true hk, Bool.true_or, if_pos rfl]
    cases hc : staleKeyIn tl now k
    · rw [if_neg (by simp), hk, lookupKey_eraseKey_self]
    · rw [if_pos rfl]
  · rw [decide_eq_false hk, Bool.false_or,
      lookupKey_eraseKey_ne m e.1 k (fun hh => hk hh.symm)]

theorem cleanup_fold_lookup {DB : Type} (now : Nat) (cf : String → Bool) (k : String) :
    ∀ (l : List (String × Nat)) (st : Cache DB) (cl lg : List String),
      lookupKey ((l.foldl (cleanupStep now cf) (st, cl, lg)).1.cache) k
          = (if staleKeyIn l now k then none else lookupKey st.cache k)
        ∧ lookupKey ((l.foldl (cleanupStep now cf) (st, cl, lg)).1.lastAccessed) k
          = (if staleKeyIn l now k then none else lookupKey st.lastAccessed k) := by
  intro l
  induction l with
  | nil =>
      intro st cl lg
      constructor <;> simp [staleKeyIn]
  | cons e tl ih =>
      intro st cl lg
      rw [List.foldl_cons]
      by_cases hs : maxInactiveDuration < now - e.2
      · cases hl : lookupKey st.cache e.1 with
        | none =>
            rw [show cleanupStep now cf (st, cl, lg) e =
                (⟨eraseKey st.cache e.1, eraseKey st.lastAccessed e.1⟩, cl, lg) from by
              simp [cleanupStep, hs, hl]]
            obtain ⟨ihc, ihl⟩ :=
              ih ⟨eraseKey st.cache e.1, eraseKey st.lastAccessed e.1⟩ cl lg
            exact ⟨by rw [ihc]; exact stale_erase_lookup st.cache e tl now k hs,
              by rw [ihl]; exact stale_erase_lookup st.lastAccessed e tl now k hs⟩
        | some d =>
            rw [show cleanupStep now cf (st, cl, lg) e =
                (⟨eraseKey st.cache e.1, eraseKey st.lastAccessed e.1⟩, cl ++ [e.1],
                  if cf e.1 then lg ++ [e.1] else lg) from by
              simp [cleanupStep, hs, hl]]
            obtain ⟨ihc, ihl⟩ :=
              ih ⟨eraseKey st.cache e.1, eraseKey st.lastAccessed e.1⟩ (cl ++ [e.1])
                (if cf e.1 then lg ++ [e.1] else lg)
            exact ⟨by rw [ihc]; exact stale_erase_lookup st.cache e tl now k hs,
              by rw [ihl]; exact stale_erase_lookup st.lastAccessed e tl now k hs⟩
      · rw [show cleanupStep now cf (st, cl, lg) e = (st, cl, lg) from by
          simp [cleanupStep, hs]]
        have hst : staleKeyIn (e :: tl) now k = staleKeyIn tl now k := by
          simp only [staleKeyIn, List.any_cons]
          rw [decide_eq_false fun hc => hs hc.2, Bool.false_or]
        obtain ⟨ihc, ihl⟩ := ih st cl lg
        exact ⟨by rw [ihc, hst], by rw [ihl, hst]⟩

theorem cleanup_fold_closed_mono {DB : Type} (now : Nat) (cf : String → Bool) (x : String) :
    ∀ (l : List (String × Nat)) (st : Cache DB) (cl lg : List String), x ∈ cl →
      x ∈ (l.foldl (cleanupStep now cf) (st, cl, lg)).2.1 := by
  intro l
  induction l with
  | nil =>
      intro st cl lg h
      simpa using h
  | cons e tl ih =>
      intro st cl lg h
      rw [List.foldl_cons]
      by_cases hs : maxInactiveDuration < now - e.2
      · cases hl : lookupKey st.cache e.1 with
        | none =>
            rw [show cleanupStep now cf (st, cl, lg) e =
                (⟨eraseKey st.cache e.1, eraseKey st.lastAccessed e.1⟩, cl, lg) from by
              simp [cleanupStep, hs, hl]]
            exact ih _ _ _ h
        | some d =>
            rw [show cleanupStep now cf (st, cl, lg) e =
                (⟨eraseKey st.cache e.1, eraseKey st.lastAccessed e.1⟩, cl ++ [e.1],
                  if cf e.1 then lg ++ [e.1] else lg) from by
              simp [cleanupStep, hs, hl]]
            exact ih _ _ _ (List.mem_append.mpr (Or.inl h))
      · rw [show cleanupStep now cf (st, cl, lg) e = (st, cl, lg) from by
          simp [cleanupStep, hs]]
        exact ih _ _ _ h

theorem cleanup_fold_closed_mem {DB : Type} (now : Nat) (cf : String → Bool)
    {k : String} {tm : Nat} :
    ∀ (l : List (String × Nat)) (st : Cache DB) (cl lg : List String),
      (k, tm) ∈ l → (l.map Prod.fst).Nodup → maxInactiveDuration < now - tm →
      ∀ d, lookupKey st.cache k = some d →
      k ∈ (l.foldl (cleanupStep now cf) (st, cl, lg)).2.1 := by
  intro l
  induction l with
  | nil =>
      intro st cl lg hm
      cases hm
  | cons e tl ih =>
      intro st cl lg hm hnd hstale d hlk
      rw [List.map_cons] at hnd
      obtain ⟨hnotin, hnd2⟩ := List.nodup_cons.mp hnd
      rw [List.foldl_cons]
      rcases List.mem_cons.mp hm with heq | hmem
      · subst heq
        rw [show cleanupStep now cf (st, cl, lg) (k, tm) =
            (⟨eraseKey st.cache (k, tm).1, eraseKey st.lastAccessed (k, tm).1⟩,
              cl ++ [(k, tm).1], if cf (k, tm).1 then lg ++ [(k, tm).1] else lg) from by
          simp [cleanupStep, hstale, hlk]]
        exact cleanup_fold_closed_mono now cf k tl _ _ _
          (List.mem_append.mpr (Or.inr (by simp)))
      · have hk0 : e.1 ≠ k := fun hh =>
          hnotin (hh.symm ▸ List.mem_map.mpr ⟨(k, tm), hmem, rfl⟩)
        have hpres : lookupKey (eraseKey st.cache e.1) k = some d := by
          rw [lookupKey_eraseKey_ne st.cache e.1 k (fun hh => hk0 hh.symm)]
          exact hlk
        by_cases hs : maxInactiveDuration < now - e.2
        · cases hl : lookupKey st.cache e.1 with
          | none =>
              rw [show cleanupStep now cf (st, cl, lg) e =
                  (⟨eraseKey st.cache e.1, eraseKey st.lastAccessed e.1⟩, cl, lg) from by
                simp [cleanupStep, hs, hl]]
              exact ih _ _ _ hmem hnd2 hstale d hpres
          | some d2 =>
              rw [show cleanupStep now cf (st, cl, lg) e =
                  (⟨eraseKey st.cache e.1, eraseKey st.lastAccessed e.1⟩, cl ++ [e.1],
                    if cf e.1 then lg ++ [e.1] else lg) from by
                simp [cleanupStep, hs, hl]]
              exact ih _ _ _ hmem hnd2 hstale d hpres
        · rw [show cleanupStep now cf (st, cl, lg) e = (st, cl, lg) from by
            simp [cleanupStep, hs]]
          exact ih _ _ _ hmem hnd2 hstale d hlk

/-- Every cache operation preserves key agreement of the two maps. -/
theorem Cache.agree_stepOp {DB : Type} {c : Cache DB} (h : c.agree) (op : CacheOp DB) :
    (c.stepOp op).agree := by
  cases op with
  | has n => exact h
  | get n now =>
      cases hl : lookupKey c.cache n with
      | none => simp only [Cache.stepOp, Cache.get, hl]; exact h
      | some d =>
          simp only [Cache.stepOp, Cache.get, hl]
          intro k
          dsimp only
          rw [lookupKey_setKey]
          by_cases hk : k = n
          · subst hk
            rw [if_pos rfl, hl]
            rfl
          · rw [if_neg hk]
            exact h k
  | getOrOpen n now r =>
      cases hl : lookupKey c.cache n with
      | some d =>
          simp only [Cache.stepOp, Cache.getOrOpen, hl]
          intro k
          dsimp only
          rw [lookupKey_setKey]
          by_cases hk : k = n
          · subst hk
            rw [if_pos rfl, hl]
            rfl
          · rw [if_neg hk]
            exact h k
      | none =>
          cases r with
          | error e => simp only [Cache.stepOp, Cache.getOrOpen, hl]; exact h
          | ok d =>
              simp only [Cache.stepOp, Cache.getOrOpen, hl]
              intro k
              dsimp only
              rw [lookupKey_setKey, lookupKey_setKey]
              by_cases hk : k = n
              · rw [if_pos hk, if_pos hk]
                rfl
              · rw [if_neg hk, if_neg hk]
                exact h k
  | set n d now =>
      cases hl : lookupKey c.cache n with
      | some d2 => simp only [Cache.stepOp, Cache.set, hl]; exact h
      | none =>
          simp only [Cache.stepOp, Cache.set, hl]
          intro k
          dsimp only
          rw [lookupKey_setKey, lookupKey_setKey]
          by_cases hk : k = n
          · rw [if_pos hk, if_pos hk]
            rfl
          · rw [if_neg hk, if_neg hk]
            exact h k
  | sweep now cf =>
      simp only [Cache.stepOp, Cache.cleanupPass]
      intro k
      obtain ⟨hc, hl⟩ := cleanup_fold_lookup now cf k c.lastAccessed c [] []
      rw [hc, hl]
      cases hb : staleKeyIn c.lastAccessed now k
      · rw [if_neg (by simp), if_neg (by simp)]
        exact h k
      · rw [if_pos rfl, if_pos rfl]
        rfl

/-- Key agreement is preserved along any run. -/
theorem Cache.agree_runOps {DB : Type} {c : Cache DB} (h : c.agree)
    (ops : List (CacheOp DB)) : (c.runOps ops).agree := by
  induction ops generalizing c with
  | nil => exact h
  | cons op rest ih => exact ih (Cache.agree_stepOp h op)

/-! ### Cache claim theorems -/

/-- C5: when the name is absent and the provider fails, `GetOrOpen` leaves
the cache exactly unchanged (nothing inserted in either map), makes exactly
one provider call, and returns the provider's error unmodified. -/
theorem claim5_getOrOpen_failure_unchanged {DB : Type} (c : Cache DB) (name : String)
    (now : Nat) (e : String) (habs : lookupKey c.cache name = none) :
    c.getOrOpen name now (.error e) = (.error e, c, [name]) := by
  simp [Cache.getOrOpen, habs]

/-- Witness for C5 on a one-entry cache and a missing name. -/
theorem claim5_witness :
    lookupKey (Cache.mk [("a", 1)] [("a", 5)] : Cache Nat).cache "b" = none ∧
    (Cache.mk [("a", 1)] [("a", 5)] : Cache Nat).getOrOpen "b" 100 (.error "boom") =
      (.error "boom", Cache.mk [("a", 1)] [("a", 5)], ["b"]) :=
  ⟨by decide, claim5_getOrOpen_failure_unchanged _ "b" 100 "boom" (by decide)⟩

/-- C6: one sweep pass removes every idle-beyond-threshold entry from both
maps and closes its cached handle, leaves every fresh entry untouched in
both maps, and this holds for every close-failure behaviour. -/
theorem claim6_sweep_pass {DB : Type} (c : Cache DB) (now : Nat) (cf : String → Bool)
    (k : String) (tm : Nat) (hmem : (k, tm) ∈ c.lastAccessed)
    (hnd : (c.lastAccessed.map Prod.fst).Nodup) :
    (maxInactiveDuration < now - tm →
        lookupKey (c.cleanupPass now cf).1.cache k = none ∧
        lookupKey (c.cleanupPass now cf).1.lastAccessed k = none ∧
        (∀ d, lookupKey c.cache k = some d → k ∈ (c.cleanupPass now cf).2.1)) ∧
    (¬ maxInactiveDuration < now - tm →
        lookupKey (c.cleanupPass now cf).1.cache k = lookupKey c.cache k ∧
        lookupKey (c.cleanupPass now cf).1.lastAccessed k = some tm) := by
  have hstale : staleKeyIn c.lastAccessed now k =
      decide (maxInactiveDuration < now - tm) := staleKeyIn_of_mem_nodup hmem hnd
  obtain ⟨hc, hl⟩ := cleanup_fold_lookup now cf k c.lastAccessed c [] []
  constructor
  · intro hst
    have hb : staleKeyIn c.lastAccessed now k = true := by
      rw [hstale]
      exact decide_eq_true hst
    refine ⟨?_, ?_, ?_⟩
    · simp only [Cache.cleanupPass]
      rw [hc, hb, if_pos rfl]
    · simp only [Cache.cleanupPass]
      rw [hl, hb, if_pos rfl]
    · intro d hd
      simp only [Cache.cleanupPass]
      exact cleanup_fold_closed_mem now cf c.lastAccessed c [] [] hmem hnd hst d hd
  · intro hst
    have hb : staleKeyIn c.lastAccessed now k = false := by
      rw [hstale]
      exact decide_eq_false hst
    constructor
    · simp only [Cache.cleanupPass]
      rw [hc, hb, if_neg (by simp)]
    · simp only [Cache.cleanupPass]
      rw [hl, hb, if_neg (by simp)]
      exact lookupKey_of_mem_nodup hmem hnd

/-- Witness for C6 on a two-entry cache, one stale and one fresh. -/
theorem claim6_witness :
    ("a", 0) ∈ (Cache.mk [("a", 10), ("b", 20)] [("a", 0), ("b", 1999)] : Cache Nat).lastAccessed ∧
    (((Cache.mk [("a", 10), ("b", 20)] [("a", 0), ("b", 1999)] : Cache Nat).lastAccessed.map
        Prod.fst).Nodup) ∧
    ((maxInactiveDuration < 2000 - 0 →
        lookupKey ((Cache.mk [("a", 10), ("b", 20)] [("a", 0), ("b", 1999)] : Cache Nat).cleanupPass
            2000 (fun _ => true)).1.cache "a" = none ∧
        lookupKey ((Cache.mk [("a", 10), ("b", 20)] [("a", 0), ("b", 1999)] : Cache Nat).cleanupPass
            2000 (fun _ => true)).1.lastAccessed "a" = none ∧
        (∀ d, lookupKey (Cache.mk [("a", 10), ("b", 20)] [("a", 0), ("b", 1999)] : Cache Nat).cache
            "a" = some d →
          "a" ∈ ((Cache.mk [("a", 10), ("b", 20)] [("a", 0), ("b", 1999)] : Cache Nat).cleanupPass
            2000 (fun _ => true)).2.1)) ∧
      (¬ maxInactiveDuration < 2000 - 0 →
        lookupKey ((Cache.mk [("a", 10), ("b", 20)] [("a", 0), ("b", 1999)] : Cache Nat).cleanupPass
            2000 (fun _ => true)).1.cache "a" =
          lookupKey (Cache.mk [("a", 10), ("b", 20)] [("a", 0), ("b", 1999)] : Cache Nat).cache "a" ∧
        lookupKey ((Cache.mk [("a", 10), ("b", 20)] [("a", 0), ("b", 1999)] : Cache Nat).cleanupPass
            2000 (fun _ => true)).1.lastAccessed "a" = some 0)) :=
  ⟨by decide, by decide,
    claim6_sweep_pass _ 2000 (fun _ => true) "a" 0 (by decide) (by decide)⟩

/-- C9: from the empty cache, any sequence of `Has`/`Get`/`GetOrOpen`/`Set`/
sweep operations keeps the handle map and the last-access table in key
agreement. -/
theorem claim9_cache_agreement {DB : Type} (ops : List (CacheOp DB)) :
    ((Cache.mk [] [] : Cache DB).runOps ops).agree :=
  Cache.agree_runOps (fun _ => rfl) ops

/-- Witness for C9 at a concrete operation sequence. -/
theorem claim9_witness :
    ((Cache.mk [] [] : Cache Nat).runOps
      [CacheOp.set "a" 1 0, CacheOp.getOrOpen "b" 5 (Except.ok 2),
        CacheOp.sweep 4000 (fun _ => false)]).agree :=
  claim9_cache_agreement _

/-- C10: `NewTransactFor` resolves through `Cache.Get` only: for a name
absent from the cache it returns no controller together with the cache's
not-found error, the cache is unchanged, and the handle provider is never
invoked. -/
theorem claim10_newTransactFor_absent {DB : Type} (Tx : Type) (c : Cache DB)
    (name : String) (now : Nat) (habs : lookupKey c.cache name = none) :
    newTransactFor Tx c name now =
      ((none, some ("database " ++ name ++ " not found in cache")), c, []) := by
  simp [newTransactFor, Cache.get, habs]

/-- Witness for C10 on a one-entry cache and a missing name. -/
theorem claim10_witness :
    lookupKey (Cache.mk [("a", 1)] [("a", 5)] : Cache Nat).cache "missing" = none ∧
    newTransactFor Nat (Cache.mk [("a", 1)] [("a", 5)] : Cache Nat) "missing" 7 =
      ((none, some ("database " ++ "missing" ++ " not found in cache")),
        Cache.mk [("a", 1)] [("a", 5)], []) :=
  ⟨by decide, claim10_newTransactFor_absent Nat _ "missing" 7 (by decide)⟩

end Dbx
